import Mathlib

/-!
Shallow embedding of the FAIRDNN flood-gauge repository (two Python sources:
`estimate_depth/models/segmentation.py` and `generate_data/gan.py`) and proofs
about the properties its specification states.

Numeric code is embedded over `ℚ` (exact arithmetic in place of IEEE floats);
image tensors become index functions; Keras layer graphs become explicit data;
Python attribute lookup on the GAN object becomes an `Except`-style lookup in
an explicit attribute environment.

The file has two parts: all definitions first, then all lemmas and theorems.
-/

/-! ## Part 1: definitions -/

namespace Segmentation

/-- The default `smooth` argument of `_dice_coef` in `segmentation.py`
(`smooth=1e-15`). -/
def smooth : ℚ := 1 / 10 ^ 15

/-- `_dice_coef(y_true, y_pred)`: both masks are flattened (here they are
already flat lists), the intersection is the sum of the element-wise product,
and the coefficient is `(2*intersection + smooth) / (sum y_true + sum y_pred
+ smooth)`. -/
def dice_coef (y_true y_pred : List ℚ) : ℚ :=
  (2 * (List.zipWith (· * ·) y_true y_pred).sum + smooth) /
    (y_true.sum + y_pred.sum + smooth)

/-- `_dice_loss(y_true, y_pred) = 1.0 - _dice_coef(y_true, y_pred)`. -/
def dice_loss (y_true y_pred : List ℚ) : ℚ :=
  1 - dice_coef y_true y_pred

/-- A flattened binary mask: every pixel is 0 or 1. -/
def IsBinary (l : List ℚ) : Prop := ∀ v ∈ l, v = 0 ∨ v = 1

/-! ### The Kaggle folder-pair loader (`_load_kaggle_dataset`) -/

/-- The part of the filesystem `_load_kaggle_dataset` reads: the list of
subset directories under `truth/` (`os.listdir(path + "truth")`), the
filename listing of `images/<dir>/` and `truth/<dir>/`, and the pixel
content each file decodes to (`cv2.imread`). -/
structure KaggleFS (α : Type) where
  dirs : List String
  imageFiles : String → List String
  truthFiles : String → List String
  imageContent : String → String → α
  truthContent : String → String → α

/-- Python's `sorted` on filename lists (stable ascending sort). -/
def sortedNames (l : List String) : List String :=
  l.insertionSort (· ≤ ·)

/-- `_load_kaggle_dataset`: for each subset directory (in listed order) it
appends, to `x_train`, the processed image of every file of
`images/<dir>/` in sorted filename order, and then appends, to `y_train`,
the processed mask of every file of `truth/<dir>/` in sorted filename
order; it returns `(x_train, y_train)` with no consistency check between
the two listings.  Per-file processing (resize-with-pad, cast, `/255`,
and `rgb_to_grayscale` for masks) is abstracted as `pI` / `pT`. -/
def load_kaggle_dataset {α β : Type} (fs : KaggleFS α) (pI pT : α → β) :
    List β × List β :=
  fs.dirs.foldl
    (fun acc dir =>
      (acc.1 ++ (sortedNames (fs.imageFiles dir)).map
          (fun n => pI (fs.imageContent dir n)),
       acc.2 ++ (sortedNames (fs.truthFiles dir)).map
          (fun n => pT (fs.truthContent dir n))))
    ([], [])

/-- The `(directory, filename)` keys the loader visits, in visiting order,
for a given listing function. -/
def kagglePairKeys {α : Type} (fs : KaggleFS α) (files : String → List String) :
    List (String × String) :=
  fs.dirs.flatMap fun d => (sortedNames (files d)).map fun n => (d, n)

/-- A concrete filesystem whose `images/a/` and `truth/a/` listings have
different lengths (`{1.png, 2.png}` versus `{1.png}`). -/
def fsMismatch : KaggleFS String :=
  { dirs := ["a"]
    imageFiles := fun _ => ["1.png", "2.png"]
    truthFiles := fun _ => ["1.png"]
    imageContent := fun _ n => n
    truthContent := fun _ n => n }

/-- A concrete filesystem whose two trees carry matching filename sets. -/
def fsMatch : KaggleFS String :=
  { dirs := ["a"]
    imageFiles := fun _ => ["2.png", "1.png"]
    truthFiles := fun _ => ["2.png", "1.png"]
    imageContent := fun d n => "img/" ++ d ++ "/" ++ n
    truthContent := fun d n => "tru/" ++ d ++ "/" ++ n }

/-! ### Polygon rasterization (`_get_mask`)

`_get_mask` starts from `np.zeros((*shape, 1))` and calls
`cv2.fillPoly(mask, pts=[coords], color=255)` for each label, with
`coords = zip(label[0], label[1])`.  `cv2.fillPoly` is library code;
following its documentation ("fills the area bounded by one or more
polygons"), a pixel is painted iff it lies in the even–odd interior of the
polygon (odd ray-crossing number) or on the boundary of a polygon that
bounds a nonzero area (a degenerate zero-area polygon bounds no area). -/

/-- The edges of a polygon: from each vertex to the next, the last closing
back to the first. -/
def polyEdges : List (ℤ × ℤ) → List ((ℤ × ℤ) × (ℤ × ℤ))
  | [] => []
  | v :: vs => (v :: vs).zip (vs ++ [v])

/-- Whether the horizontal ray from pixel `q` in the `+x` direction crosses
edge `e` (standard even–odd ray-casting edge test, in exact integer
arithmetic: `q.1 < x1 + (q.2 - y1) * (x2 - x1) / (y2 - y1)` with the
division cleared, for edges straddling the scanline). -/
def edgeCrosses (q : ℤ × ℤ) (e : (ℤ × ℤ) × (ℤ × ℤ)) : Bool :=
  (decide (e.1.2 > q.2) != decide (e.2.2 > q.2)) &&
  (if e.2.2 > e.1.2
   then decide ((q.1 - e.1.1) * (e.2.2 - e.1.2) < (e.2.1 - e.1.1) * (q.2 - e.1.2))
   else decide ((q.1 - e.1.1) * (e.2.2 - e.1.2) > (e.2.1 - e.1.1) * (q.2 - e.1.2)))

/-- Number of polygon edges crossed by the ray from `q`. -/
def crossings (p : List (ℤ × ℤ)) (q : ℤ × ℤ) : ℕ :=
  ((polyEdges p).filter (edgeCrosses q)).length

/-- Whether pixel `q` lies on the closed segment `e`. -/
def onSegment (q : ℤ × ℤ) (e : (ℤ × ℤ) × (ℤ × ℤ)) : Bool :=
  decide ((q.1 - e.1.1) * (e.2.2 - e.1.2) = (q.2 - e.1.2) * (e.2.1 - e.1.1)) &&
  decide (min e.1.1 e.2.1 ≤ q.1) && decide (q.1 ≤ max e.1.1 e.2.1) &&
  decide (min e.1.2 e.2.2 ≤ q.2) && decide (q.2 ≤ max e.1.2 e.2.2)

/-- Whether pixel `q` lies on the polygon's boundary. -/
def onBoundary (p : List (ℤ × ℤ)) (q : ℤ × ℤ) : Bool :=
  (polyEdges p).any (onSegment q)

/-- Twice the signed (shoelace) area of the polygon; zero for degenerate
polygons. -/
def shoelace (p : List (ℤ × ℤ)) : ℤ :=
  ((polyEdges p).map (fun e => e.1.1 * e.2.2 - e.2.1 * e.1.2)).sum

/-- The pixels `cv2.fillPoly` paints (see the section comment): even–odd
interior, plus the boundary when the polygon bounds a nonzero area. -/
def inFill (p : List (ℤ × ℤ)) (q : ℤ × ℤ) : Bool :=
  decide (crossings p q % 2 = 1) || (decide (shoelace p ≠ 0) && onBoundary p q)

/-- `cv2.fillPoly(mask, pts=[coords], color)`: paint every filled pixel
with `color`, leave the rest of the canvas unchanged. -/
def fillPoly (img : ℤ × ℤ → ℤ) (p : List (ℤ × ℤ)) (color : ℤ) : ℤ × ℤ → ℤ :=
  fun q => if inFill p q then color else img q

/-- `_get_mask(labels, shape)`: zero-initialized single-channel canvas
(modelled as the pixel function over the spatial coordinates; `shape` only
bounds the pixels quantified over), then `cv2.fillPoly(..., color=255)` for
each label's polygon `zip(label[0], label[1])`. -/
def get_mask (labels : List (List ℤ × List ℤ)) : ℤ × ℤ → ℤ :=
  labels.foldl (fun m lab => fillPoly m (lab.1.zip lab.2) 255) (fun _ => 0)

/-- The annotation label of a single rectangular polygon covering the full
image of spatial shape `(h, w)`: corners `(0,0)`, `(w-1,0)`, `(w-1,h-1)`,
`(0,h-1)`. -/
def fullRectLabel (w h : ℕ) : List ℤ × List ℤ :=
  ([0, (w : ℤ) - 1, (w : ℤ) - 1, 0], [0, 0, (h : ℤ) - 1, (h : ℤ) - 1])

/-- A zero-area (degenerate) polygon label: the same point repeated `n`
times. -/
def pointLabel (a b : ℤ) (n : ℕ) : List ℤ × List ℤ :=
  (List.replicate n a, List.replicate n b)

/-- `IMG_WIDTH = 512`. -/
def IMG_WIDTH : ℕ := 512

/-- `IMG_HEIGHT = 512`. -/
def IMG_HEIGHT : ℕ := 512

/-! ### Resize-with-pad and normalize (`_convert_image`)

`_convert_image` is `tf.cast(tf.image.resize_with_pad(image, IMG_WIDTH,
IMG_HEIGHT), np.uint8) / 255`.  `tf.image.resize_with_pad` is framework
code; it is modelled from its documentation: resize preserving the aspect
ratio (default bilinear sampling — a convex interpolation of source
pixels, with half-pixel centers and edge clamping) to the largest extent
fitting the target, then pad with zeros, centered.  `tf.cast(..., np.uint8)`
truncates the nonnegative float values toward zero.  Exact rationals stand
in for floats. -/

/-- An image (one channel suffices for the claims): spatial shape and pixel
values, as a total function over row/column indices. -/
structure Img where
  h : ℕ
  w : ℕ
  pix : ℕ → ℕ → ℚ

/-- A valid 8-bit image: every pixel value lies in `[0, 255]`. -/
def Img.Valid8Bit (img : Img) : Prop :=
  ∀ i j, 0 ≤ img.pix i j ∧ img.pix i j ≤ 255

/-- Half-pixel-centers source coordinate of output index `i` when resizing
extent `n` to extent `r`. -/
def srcCoord (n r i : ℕ) : ℚ := ((i : ℚ) + 1 / 2) * n / r - 1 / 2

/-- Clamped neighbouring sample indices and interpolation weight for a
source coordinate: low and high index clamped into `[0, n-1]`, and the
fractional weight clamped into `[0, 1]`. -/
def clampIdx (n : ℕ) (c : ℚ) : ℕ × ℕ × ℚ :=
  let c0 := max 0 c
  let i0 := min (⌊c0⌋.toNat) (n - 1)
  (i0, min (i0 + 1) (n - 1), min (c0 - (i0 : ℚ)) 1)

/-- Linear interpolation between `a` and `b` with weight `t`. -/
def lerp (a b t : ℚ) : ℚ := (1 - t) * a + t * b

/-- One bilinear sample of the source image, for output pixel `(i, j)` of a
resize of `img` to `rh × rw`. -/
def sampleBilinear (img : Img) (rh rw i j : ℕ) : ℚ :=
  let py := clampIdx img.h (srcCoord img.h rh i)
  let px := clampIdx img.w (srcCoord img.w rw j)
  lerp (lerp (img.pix py.1 px.1) (img.pix py.1 px.2.1) px.2.2)
    (lerp (img.pix py.2.1 px.1) (img.pix py.2.1 px.2.1) px.2.2)
    py.2.2

/-- `tf.image.resize_with_pad(image, target_height, target_width)`: scale by
`min(tw/w, th/h)` preserving aspect ratio, bilinear-resize to the scaled
extent, and center inside a zero padding of the target shape. -/
def resize_with_pad (img : Img) (th tw : ℕ) : Img :=
  let ratio : ℚ := min ((tw : ℚ) / img.w) ((th : ℚ) / img.h)
  let rh : ℕ := min th (max 1 (⌊(img.h : ℚ) * ratio⌋.toNat))
  let rw : ℕ := min tw (max 1 (⌊(img.w : ℚ) * ratio⌋.toNat))
  let padTop := (th - rh) / 2
  let padLeft := (tw - rw) / 2
  { h := th
    w := tw
    pix := fun i j =>
      if padTop ≤ i ∧ i < padTop + rh ∧ padLeft ≤ j ∧ j < padLeft + rw then
        sampleBilinear img rh rw (i - padTop) (j - padLeft)
      else 0 }

/-- `_convert_image(image)`: resize-with-pad to `IMG_WIDTH × IMG_HEIGHT`,
cast to `uint8` (truncation toward zero of the nonnegative values), and
divide by 255. -/
def convert_image (img : Img) : Img :=
  let r := resize_with_pad img IMG_WIDTH IMG_HEIGHT
  { h := r.h
    w := r.w
    pix := fun i j => ((⌊r.pix i j⌋.toNat : ℚ)) / 255 }

/-- A concrete valid 8-bit test image (3 rows, 5 columns, constant value
200). -/
def sampleImage : Img :=
  { h := 3, w := 5, pix := fun _ _ => 200 }

/-! ### The U-Net assembly (`_create_model`) -/

/-- What `_create_model` uses of the backbone returned by
`tf.keras.applications.MobileNetV2`: its (relevant) layer names, each
layer's `trainable` flag, and the weight source it was loaded with. -/
structure BackboneModel where
  layerNames : List String
  trainable : String → Bool
  weights : String

/-- Modelled from the Keras documentation (the backbone constructor is
library code): `tf.keras.applications.MobileNetV2(input_tensor=...,
include_top=False, weights=w)` returns a model whose layers all carry the
Keras default `trainable = True`; loading public weights does not change
that flag.  Only the layers `_create_model` refers to by name are listed. -/
def MobileNetV2 (weights : String) : BackboneModel :=
  { layerNames := ["input_image", "block_1_expand_relu", "block_3_expand_relu",
      "block_6_expand_relu", "block_13_expand_relu"]
    trainable := fun _ => true
    weights := weights }

/-- The encoder built in `_create_model`: MobileNetV2 with
`weights="imagenet"`.  The source never assigns any layer's `trainable`
attribute afterwards. -/
def create_model_encoder : BackboneModel := MobileNetV2 "imagenet"

/-- The layer at which the encoder is truncated:
`encoder.get_layer("block_13_expand_relu").output`. -/
def encoder_output_layer : String := "block_13_expand_relu"

/-- A Keras layer application in the decoder of `_create_model`. -/
inductive LayerOp where
  | upSampling2D (factor : ℕ)
  | concatenate (skipName : String)
  | conv2D (filters kh kw : ℕ)
  | batchNorm
  | activation (fn : String)
deriving DecidableEq

/-- `skip_connection_names` from `_create_model`. -/
def skip_connection_names : List String :=
  ["input_image", "block_1_expand_relu", "block_3_expand_relu", "block_6_expand_relu"]

/-- The filter schedule `f = [16, 32, 48, 64, 128]` from `_create_model`. -/
def f_schedule : List ℕ := [16, 32, 48, 64, 128]

/-- Python negative indexing `l[-i]` (with a default for out of range,
never hit at the call sites). -/
def negGet {γ : Type} (l : List γ) (i : ℕ) (dflt : γ) : γ :=
  l.getD (l.length - i) dflt

/-- The decoder of `_create_model`: for `i in range(1, len(
skip_connection_names) + 1)`, upsample 2×, concatenate with the activation
named `skip_connection_names[-i]`, then twice `Conv2D(f[-i], (3,3),
padding="same")` + `BatchNormalization` + `ReLU`; finally `Conv2D(1,
(1,1))` + sigmoid. -/
def decoder_ops : List LayerOp :=
  (List.range' 1 skip_connection_names.length).foldl
    (fun acc i =>
      acc ++ [LayerOp.upSampling2D 2,
              LayerOp.concatenate (negGet skip_connection_names i ""),
              LayerOp.conv2D (negGet f_schedule i 0) 3 3,
              LayerOp.batchNorm,
              LayerOp.activation "relu",
              LayerOp.conv2D (negGet f_schedule i 0) 3 3,
              LayerOp.batchNorm,
              LayerOp.activation "relu"])
    []
  ++ [LayerOp.conv2D 1 1 1, LayerOp.activation "sigmoid"]

/-- Modelled from the MobileNetV2 architecture (library code): the spatial
resolution of each activation `_create_model` names, for a 512×512 input
(`input_image` at stride 1, `block_1/3/6/13_expand_relu` at strides
2/4/8/16). -/
def skipRes : String → ℕ
  | "input_image" => 512
  | "block_1_expand_relu" => 256
  | "block_3_expand_relu" => 128
  | "block_6_expand_relu" => 64
  | "block_13_expand_relu" => 32
  | _ => 0

/-- Spatial-size semantics of a decoder op: upsampling multiplies the
resolution by its factor; concatenation requires the named skip activation
to have the current resolution (otherwise the graph is ill-formed, `none`);
convolutions with `padding="same"`, batch norm and activations preserve
it. -/
def opSize (s : Option ℕ) (op : LayerOp) : Option ℕ :=
  match s, op with
  | some n, LayerOp.upSampling2D k => some (k * n)
  | some n, LayerOp.concatenate skip => if skipRes skip = n then some n else none
  | some n, LayerOp.conv2D _ _ _ => some n
  | some n, LayerOp.batchNorm => some n
  | some n, LayerOp.activation _ => some n
  | none, _ => none

/-- The spatial resolution of the decoder output, starting from the
truncated encoder output. -/
def decoder_output_size : Option ℕ :=
  decoder_ops.foldl opSize (some (skipRes encoder_output_layer))

/-! ### Compile configuration and inference (`_create_model`,
`predict_on_learned_model`, `display_segmentation`) -/

/-- An optimizer/loss/metric configuration passed to `model.compile`. -/
structure CompileConfig where
  optimizer : String
  learning_rate : ℚ
  loss : List ℚ → List ℚ → ℚ
  metrics : List String

/-- The `unet.compile(...)` call in `_create_model`:
`tf.keras.optimizers.Nadam(1e-4)`, `loss=_dice_loss`,
`metrics=[_dice_coef, metrics.Recall(), metrics.Precision()]`. -/
def create_model_compile : CompileConfig :=
  { optimizer := "Nadam"
    learning_rate := 1 / 10 ^ 4
    loss := dice_loss
    metrics := ["_dice_coef", "Recall", "Precision"] }

/-- The `compile=False` flag of `tf.keras.models.load_model` in both
`predict_on_learned_model` and `display_segmentation`: the model is
reloaded without loss/metric bindings. -/
def load_model_compile_flag : Bool := false

/-- The `u_net.compile(...)` call in `predict_on_learned_model`. -/
def predict_compile : CompileConfig :=
  { optimizer := "Nadam"
    learning_rate := 1 / 10 ^ 4
    loss := dice_loss
    metrics := ["_dice_coef", "Recall", "Precision"] }

/-- The `u_net.compile(...)` call in `display_segmentation`. -/
def display_compile : CompileConfig :=
  { optimizer := "Nadam"
    learning_rate := 1 / 10 ^ 4
    loss := dice_loss
    metrics := ["_dice_coef", "Recall", "Precision"] }

/-- `u_net.predict(images)`: batched forward inference, one output per
input image; the deserialized network is abstracted as a function. -/
def model_predict {γ δ : Type} (net : γ → δ) (images : List γ) : List δ :=
  images.map net

/-- `predict_on_learned_model(images)`: reload the persisted model
(without compile), re-attach `predict_compile`, and return
`u_net.predict(images)`. -/
def predict_on_learned_model {γ δ : Type} (u_net : γ → δ) (images : List γ) :
    List δ :=
  model_predict u_net images

end Segmentation

namespace GAN

/-! ### Attribute-level model of `gan.py`'s `ReGAN` class

A Python object is modelled by the list of attribute names defined on it;
reading attribute `a` succeeds iff `a` is in that list, otherwise it raises
`AttributeError a` (modelled as `Except.error a`).  Each method of `ReGAN`
is summarised by the sequence of `self.<attr>` reads its body performs, in
source order. -/

/-- Evaluate a sequence of `self.<attr>` reads against the set of defined
attributes; the first undefined name raises. -/
def runReads (env : List String) : List String → Except String Unit
  | [] => .ok ()
  | a :: rest => if a ∈ env then runReads env rest else .error a

/-- The attributes `ReGAN.__init__` assigns before calling the four
`_create_*` methods: `image_size`, `channels`, `latent_dim`, `batch_size`,
`kernel_size`. -/
def initAttrs : List String :=
  ["image_size", "channels", "latent_dim", "batch_size", "kernel_size"]

/-- The attributes a fully constructed `ReGAN` would carry: the `__init__`
assignments plus the four sub-model attributes assigned afterwards. -/
def reGANAttrs : List String :=
  initAttrs ++ ["encoder", "generator", "encoder_discriminator", "image_discriminator"]

/-- `self.` reads performed by `_create_encoder`, in source order:
`self.img_size` twice in the `InputLayer` shape, `self.kernel_size` in the
convolution loop, `self.latent_dim` in the final `Dense`. -/
def create_encoder_reads : List String :=
  ["img_size", "img_size", "channels", "kernel_size", "latent_dim"]

/-- `self.` reads performed by `_create_generator`, in source order:
`self.noise_dim` twice in the initial `Reshape`, then `self.channels`. -/
def create_generator_reads : List String :=
  ["noise_dim", "noise_dim", "channels"]

/-- `self.` reads performed by `_create_encoder_discriminator` (its body is
`pass`). -/
def create_encoder_discriminator_reads : List String := []

/-- `self.` reads performed by `_create_image_discriminator`, in source
order: `self.img_size` twice in the `InputLayer` shape, `self.channels`. -/
def create_image_discriminator_reads : List String :=
  ["img_size", "img_size", "channels"]

/-- `ReGAN.__init__(img_size, channels, latent_dim, batch_size,
kernel_size)`: store the five constructor arguments under the `initAttrs`
names, then call `_create_encoder`, `_create_generator`,
`_create_encoder_discriminator`, `_create_image_discriminator` in order,
each result being stored as a further attribute.  The argument values play
no role in attribute-name resolution. -/
def reGANInit (img_size channels latent_dim batch_size kernel_size : ℕ) :
    Except String (List String) :=
  let _ := (img_size, channels, latent_dim, batch_size, kernel_size)
  let env := initAttrs
  match runReads env create_encoder_reads with
  | .error a => .error a
  | .ok _ =>
    let env := env ++ ["encoder"]
    match runReads env create_generator_reads with
    | .error a => .error a
    | .ok _ =>
      let env := env ++ ["generator"]
      match runReads env create_encoder_discriminator_reads with
      | .error a => .error a
      | .ok _ =>
        let env := env ++ ["encoder_discriminator"]
        match runReads env create_image_discriminator_reads with
        | .error a => .error a
        | .ok _ => .ok (env ++ ["image_discriminator"])

/-- `self.` reads performed by `ReGAN.train_step`, in source order:
`self.batch_size` and `self.noise_dim` for the noise, then
`self.generator`, `self.discriminator` (twice), `self.gen_loss`,
`self.disc_loss`, and the gradient-application reads. -/
def train_step_reads : List String :=
  ["batch_size", "noise_dim", "generator", "discriminator", "discriminator",
   "gen_loss", "disc_loss", "generator", "gen_optimizer", "generator",
   "discriminator", "disc_optimizer", "discriminator"]

/-- Python's `%` on rationals (`a % b = a - b * floor(a / b)`), used to model
the float expression `epoch % (epochs / 10)`. -/
def pymod (a b : ℚ) : ℚ := a - b * ⌊a / b⌋

/-- The guard `epoch % (epochs / 10) == 0` of the visualization branch in
`ReGAN.train` (true division: `epochs / 10` is a float). -/
def visCond (epochs epoch : ℕ) : Bool :=
  pymod (epoch : ℚ) ((epochs : ℚ) / 10) = 0

/-- The inner loop of one epoch of `ReGAN.train`: `for i in
range(len(dataset))`, calling `self.train_step` whenever
`i % batch_size == 0` (only the attribute reads are modelled; the batch
contents do not affect them).  `i` is the running index, the second
argument the number of remaining iterations. -/
def trainInnerGo (env : List String) (bs : ℕ) : ℕ → ℕ → Except String Unit
  | _, 0 => .ok ()
  | i, todo + 1 =>
    match (if i % bs = 0 then runReads env train_step_reads else .ok ()) with
    | .error a => .error a
    | .ok _ => trainInnerGo env bs (i + 1) todo

/-- The inner loop of one epoch, started at index 0 over `n = len(dataset)`
iterations. -/
def trainInner (env : List String) (n bs : ℕ) : Except String Unit :=
  trainInnerGo env bs 0 n

/-- `ReGAN.call` — its body is `pass`, so it returns Python `None`. -/
def reGANCall : Option Unit := none

/-- The visualization branch body:
`self.call(tf.random.normal([16, self.noise_dim]))` — it reads
`self.noise_dim` and then stores the result of `self.call`. -/
def visStep (env : List String) : Except String (Option Unit) :=
  match runReads env ["noise_dim"] with
  | .error a => .error a
  | .ok _ => .ok reGANCall

/-- One epoch body of `ReGAN.train`: run the inner batch loop, then, when
`epoch % (epochs / 10) == 0`, append the visualization result to
`generated_images`. -/
def epochStep (env : List String) (n bs epochs : ℕ)
    (acc : List (Option Unit)) (epoch : ℕ) : Except String (List (Option Unit)) :=
  match trainInner env n bs with
  | .error a => .error a
  | .ok _ =>
    if visCond epochs epoch then
      match visStep env with
      | .error a => .error a
      | .ok v => .ok (acc ++ [v])
    else .ok acc

/-- The epoch loop of `ReGAN.train`: the first argument of the recursion is
the current epoch index, the second the number of remaining epochs. -/
def trainEpochsGo (env : List String) (n bs epochs : ℕ) :
    ℕ → ℕ → List (Option Unit) → Except String (List (Option Unit))
  | _, 0, acc => .ok acc
  | epoch, todo + 1, acc =>
    match epochStep env n bs epochs acc epoch with
    | .error a => .error a
    | .ok acc' => trainEpochsGo env n bs epochs (epoch + 1) todo acc'

/-- `ReGAN.train(dataset, epochs, batch_size)`: iterate the epoch body over
`epoch in range(epochs)` starting from an empty `generated_images` list;
`n` is `len(dataset)`.  On success the returned list is
`generated_images`. -/
def reGANTrain (env : List String) (n epochs bs : ℕ) :
    Except String (List (Option Unit)) :=
  trainEpochsGo env n bs epochs 0 epochs []

/-! ### The batching structure of `ReGAN.train`'s inner loop

`batchLoop bs i nb l` mirrors the loop body exactly: append the next sample
to `next_batch`, and when `i % batch_size == 0` emit the batch (a call to
`train_step`) and reset `next_batch`.  It returns the emitted batches in
order together with the final (never-trained) `next_batch`. -/

def batchLoop {α : Type} (bs : ℕ) : ℕ → List α → List α → List (List α) × List α
  | _, nb, [] => ([], nb)
  | i, nb, d :: rest =>
    if i % bs = 0 then
      ((nb ++ [d]) :: (batchLoop bs (i + 1) [] rest).1,
       (batchLoop bs (i + 1) [] rest).2)
    else
      batchLoop bs (i + 1) (nb ++ [d]) rest

/-- The batches of one epoch of `ReGAN.train` (first component) and the
trailing samples discarded without a gradient step (second component). -/
def epochBatches {α : Type} (bs : ℕ) (dataset : List α) :
    List (List α) × List α :=
  batchLoop bs 0 [] dataset

/-- Successive complete `bs`-element chunks of a list (fuelled structural
recursion; the fuel is instantiated with the list length). -/
def chunksGo {α : Type} (bs : ℕ) : ℕ → List α → List (List α)
  | 0, _ => []
  | fuel + 1, l =>
    if 1 ≤ bs ∧ bs ≤ l.length then
      l.take bs :: chunksGo bs fuel (l.drop bs)
    else []

/-- What remains of a list after removing its complete `bs`-element
chunks. -/
def dropGo {α : Type} (bs : ℕ) : ℕ → List α → List α
  | 0, l => l
  | fuel + 1, l =>
    if 1 ≤ bs ∧ bs ≤ l.length then dropGo bs fuel (l.drop bs) else l

/-- The complete `bs`-element chunks of `l`, in order. -/
def fullChunks {α : Type} (bs : ℕ) (l : List α) : List (List α) :=
  chunksGo bs l.length l

/-- The trailing partial chunk of `l` (empty when `bs` divides evenly). -/
def dropChunks {α : Type} (bs : ℕ) (l : List α) : List α :=
  dropGo bs l.length l

end GAN

/-! ## Part 2: lemmas and theorems -/

namespace Segmentation

lemma isBinary_cons {a : ℚ} {l : List ℚ} (h : IsBinary (a :: l)) :
    (a = 0 ∨ a = 1) ∧ IsBinary l := by
  refine ⟨h a (List.mem_cons_self a l), fun v hv => h v (List.mem_cons_of_mem a hv)⟩

lemma bin_sq_sum {l : List ℚ} (h : IsBinary l) :
    (List.zipWith (· * ·) l l).sum = l.sum := by
  induction l with
  | nil => simp
  | cons a t ih =>
    obtain ⟨ha, ht⟩ := isBinary_cons h
    have haa : a * a = a := by rcases ha with rfl | rfl <;> ring
    have hz : List.zipWith (· * ·) (a :: t) (a :: t) =
        (a * a) :: List.zipWith (· * ·) t t := rfl
    rw [hz, List.sum_cons, List.sum_cons, haa, ih ht]

lemma bin_sum_nonneg {l : List ℚ} (h : IsBinary l) : 0 ≤ l.sum := by
  induction l with
  | nil => simp
  | cons a t ih =>
    obtain ⟨ha, ht⟩ := isBinary_cons h
    have h0 : (0:ℚ) ≤ a := by rcases ha with rfl | rfl <;> norm_num
    have := ih ht
    simp only [List.sum_cons]
    linarith

end Segmentation

/-- C1: the Dice loss (flatten, elementwise-product sum as intersection,
`1 - (2I + ε)/(Σ y_true + Σ y_pred + ε)` with `ε = 1e-15`) is exactly 0 when
the two binary masks are identical, and within `ε` of 1 (while staying below 1)
when they are disjoint (zero intersection) and both non-empty (each sums to at
least one foreground pixel). -/
theorem C1_dice_loss_extremes (t p : List ℚ)
    (hbt : Segmentation.IsBinary t) (hbp : Segmentation.IsBinary p) :
    (t = p → Segmentation.dice_loss t p = 0) ∧
    ((List.zipWith (· * ·) t p).sum = 0 → 1 ≤ t.sum → 1 ≤ p.sum →
      1 - Segmentation.smooth ≤ Segmentation.dice_loss t p ∧
      Segmentation.dice_loss t p < 1) := by
  constructor
  · rintro rfl
    have hsum := Segmentation.bin_sq_sum hbt
    have hnn := Segmentation.bin_sum_nonneg hbt
    have hsm : (0:ℚ) < Segmentation.smooth := by norm_num [Segmentation.smooth]
    have hden : t.sum + t.sum + Segmentation.smooth ≠ 0 := by linarith
    unfold Segmentation.dice_loss Segmentation.dice_coef
    rw [hsum]
    field_simp
    ring
  · intro hI h1 h2
    have hsm : (0:ℚ) < Segmentation.smooth := by norm_num [Segmentation.smooth]
    have hsm1 : Segmentation.smooth ≤ 1 := by norm_num [Segmentation.smooth]
    have hden : (0:ℚ) < t.sum + p.sum + Segmentation.smooth := by linarith
    have hden1 : (1:ℚ) ≤ t.sum + p.sum + Segmentation.smooth := by linarith
    unfold Segmentation.dice_loss Segmentation.dice_coef
    rw [hI]
    constructor
    · have hle : Segmentation.smooth / (t.sum + p.sum + Segmentation.smooth) ≤
          Segmentation.smooth / 1 :=
        div_le_div_of_nonneg_left (le_of_lt hsm) one_pos hden1
      rw [div_one] at hle
      have h20 : (2 * 0 + Segmentation.smooth) = Segmentation.smooth := by ring
      rw [h20]
      linarith
    · have hpos : 0 < Segmentation.smooth / (t.sum + p.sum + Segmentation.smooth) :=
        div_pos hsm hden
      have h20 : (2 * 0 + Segmentation.smooth) = Segmentation.smooth := by ring
      rw [h20]
      linarith

/-- Witness for C1 at concrete masks: `[1,0]` vs itself, and `[1,0]` vs the
disjoint `[0,1]`. -/
theorem C1_dice_loss_extremes_witness :
    Segmentation.dice_loss [1, 0] [1, 0] = 0 ∧
    (1 - Segmentation.smooth ≤ Segmentation.dice_loss [1, 0] [0, 1] ∧
      Segmentation.dice_loss [1, 0] [0, 1] < 1) := by
  have hb1 : Segmentation.IsBinary [1, 0] := by
    intro v hv
    simp only [List.mem_cons, List.not_mem_nil, or_false] at hv
    rcases hv with rfl | rfl
    · exact Or.inr rfl
    · exact Or.inl rfl
  have hb2 : Segmentation.IsBinary [0, 1] := by
    intro v hv
    simp only [List.mem_cons, List.not_mem_nil, or_false] at hv
    rcases hv with rfl | rfl
    · exact Or.inl rfl
    · exact Or.inr rfl
  refine ⟨(C1_dice_loss_extremes [1, 0] [1, 0] hb1 hb1).1 rfl, ?_⟩
  exact (C1_dice_loss_extremes [1, 0] [0, 1] hb1 hb2).2 (by norm_num) (by norm_num)
    (by norm_num)

namespace GAN

lemma runReads_train_step_err :
    runReads reGANAttrs train_step_reads = .error "noise_dim" := by
  simp [runReads, reGANAttrs, initAttrs, train_step_reads]

lemma visStep_err : visStep reGANAttrs = .error "noise_dim" := by
  unfold visStep
  simp [runReads, reGANAttrs, initAttrs]

lemma visCond_zero (epochs : ℕ) : visCond epochs 0 = true := by
  unfold visCond pymod
  norm_num

lemma trainInner_err (n bs : ℕ) (hn : 1 ≤ n) :
    trainInner reGANAttrs n bs = .error "noise_dim" := by
  obtain ⟨m, rfl⟩ : ∃ m, n = m + 1 := ⟨n - 1, by omega⟩
  unfold trainInner
  rw [trainInnerGo]
  rw [if_pos (Nat.zero_mod bs), runReads_train_step_err]

lemma epochStep_zero_err (n bs epochs : ℕ) :
    epochStep reGANAttrs n bs epochs [] 0 = .error "noise_dim" := by
  unfold epochStep
  rcases Nat.eq_zero_or_pos n with rfl | hn
  · have h1 : trainInner reGANAttrs 0 bs = .ok () := rfl
    rw [h1, visCond_zero, if_pos rfl, visStep_err]
  · rw [trainInner_err n bs hn]

end GAN

/-- C9: constructing a `ReGAN` always fails with an `AttributeError`, for
every choice of constructor arguments: `__init__` stores the image size as
`image_size`, but `_create_encoder` (the first method it calls) reads
`self.img_size`, and `_create_generator` reads `self.noise_dim`; neither
name (nor `img_size` for `_create_image_discriminator`) is ever defined on
the object. -/
theorem C9_regan_constructor_always_fails
    (img_size channels latent_dim batch_size kernel_size : ℕ) :
    GAN.reGANInit img_size channels latent_dim batch_size kernel_size =
      Except.error "img_size" ∧
    GAN.create_encoder_reads.head? = some "img_size" ∧
    "noise_dim" ∈ GAN.create_generator_reads ∧
    "img_size" ∈ GAN.create_image_discriminator_reads ∧
    "img_size" ∉ GAN.reGANAttrs ∧ "noise_dim" ∉ GAN.reGANAttrs := by
  refine ⟨rfl, rfl, ?_, ?_, ?_, ?_⟩ <;> decide

/-- C8 (evidence of the code bug): with the attributes a `ReGAN` instance
would carry, `ReGAN.train` raises `AttributeError: noise_dim` during epoch 0
— inside `train_step` when the dataset is non-empty, otherwise inside the
visualization branch — so no visualization batch is ever generated or stored
and `generated_images` is never returned (moreover `ReGAN.call`, which the
branch would store, is a stub returning `None`). -/
theorem C8_train_visualization_impossible (n epochs bs : ℕ)
    (hep : 1 ≤ epochs) (_hbs : 1 ≤ bs) :
    GAN.reGANTrain GAN.reGANAttrs n epochs bs = .error "noise_dim" ∧
    GAN.reGANCall = none := by
  refine ⟨?_, rfl⟩
  obtain ⟨e, rfl⟩ : ∃ e, epochs = e + 1 := ⟨epochs - 1, by omega⟩
  unfold GAN.reGANTrain
  rw [GAN.trainEpochsGo, GAN.epochStep_zero_err]

/-- Witness for C8 at `n = 0`, `epochs = 10`, `batch_size = 128` (and at a
non-empty dataset length `n = 3`). -/
theorem C8_train_visualization_impossible_witness :
    (1 ≤ 10 ∧ 1 ≤ 128) ∧
    (GAN.reGANTrain GAN.reGANAttrs 0 10 128 = .error "noise_dim" ∧
      GAN.reGANCall = none) ∧
    (GAN.reGANTrain GAN.reGANAttrs 3 10 128 = .error "noise_dim" ∧
      GAN.reGANCall = none) :=
  ⟨⟨by norm_num, by norm_num⟩,
    C8_train_visualization_impossible 0 10 128 (by norm_num) (by norm_num),
    C8_train_visualization_impossible 3 10 128 (by norm_num) (by norm_num)⟩

namespace GAN

lemma batchLoop_no_fire {α : Type} (bs : ℕ) :
    ∀ (l : List α) (i : ℕ) (nb : List α),
      (∀ k, k < l.length → (i + k) % bs ≠ 0) →
      batchLoop bs i nb l = ([], nb ++ l) := by
  intro l
  induction l with
  | nil => intro i nb _; simp [batchLoop]
  | cons d rest ih =>
    intro i nb h
    have h0 : ¬ i % bs = 0 := by
      have := h 0 (by simp)
      simpa using this
    rw [batchLoop, if_neg h0]
    rw [ih (i + 1) (nb ++ [d]) ?_]
    · simp
    · intro k hk
      have hk' : k + 1 < (d :: rest).length := by
        simpa using Nat.succ_lt_succ hk
      have := h (k + 1) hk'
      have harith : i + 1 + k = i + (k + 1) := by omega
      rw [harith]
      exact this

lemma batchLoop_fire {α : Type} (bs : ℕ) :
    ∀ (j : ℕ), 1 ≤ j → j ≤ bs →
      ∀ (l : List α), j ≤ l.length →
        ∀ (i : ℕ), (i + (j - 1)) % bs = 0 →
          (∀ k, k < j - 1 → (i + k) % bs ≠ 0) →
          ∀ (nb : List α),
            batchLoop bs i nb l =
              ((nb ++ l.take j) :: (batchLoop bs (i + j) [] (l.drop j)).1,
                (batchLoop bs (i + j) [] (l.drop j)).2) := by
  intro j
  induction j with
  | zero => omega
  | succ j' ih =>
    intro _ hjbs l hlen i hi hprev nb
    rcases l with _ | ⟨d, rest⟩
    · simp at hlen
    rcases Nat.eq_zero_or_pos j' with rfl | hj'
    · have hi0 : i % bs = 0 := by simpa using hi
      rw [batchLoop, if_pos hi0]
      simp
    · have h0 : ¬ i % bs = 0 := by
        have := hprev 0 (by omega)
        simpa using this
      rw [batchLoop, if_neg h0]
      rw [ih hj' (by omega) rest (by simpa using hlen) (i + 1)
        (by have : i + 1 + (j' - 1) = i + (j' + 1 - 1) := by omega
            rw [this]; exact hi)
        (by intro k hk
            have := hprev (k + 1) (by omega)
            have harith : i + 1 + k = i + (k + 1) := by omega
            rw [harith]; exact this)
        (nb ++ [d])]
      have harith2 : i + 1 + j' = i + (j' + 1) := by omega
      rw [harith2]
      simp [List.take_succ_cons]

lemma mod_add_one_lt (bs i k : ℕ) (hbs : 2 ≤ bs) (hi : i % bs = 1 % bs)
    (hk : k + 1 < bs) : (i + k) % bs ≠ 0 := by
  have h1 : 1 % bs = 1 := Nat.mod_eq_of_lt (by omega)
  have hkk : k % bs = k := Nat.mod_eq_of_lt (by omega)
  rw [Nat.add_mod, hi, h1, hkk, Nat.mod_eq_of_lt (by omega)]
  omega

lemma steady_fire_at (bs i : ℕ) (hbs : 1 ≤ bs) (hi : i % bs = 1 % bs) :
    (i + (bs - 1)) % bs = 0 := by
  rcases Nat.lt_or_ge bs 2 with h | h
  · have hbs1 : bs = 1 := by omega
    subst hbs1
    simp [Nat.mod_one]
  · have h1 : 1 % bs = 1 := Nat.mod_eq_of_lt (by omega)
    have hb1 : (bs - 1) % bs = bs - 1 := Nat.mod_eq_of_lt (by omega)
    rw [Nat.add_mod, hi, h1, hb1]
    have hsum : 1 + (bs - 1) = bs := by omega
    rw [hsum, Nat.mod_self]

lemma batchLoop_steady {α : Type} (bs : ℕ) (hbs : 1 ≤ bs) :
    ∀ (fuel : ℕ) (l : List α), l.length ≤ fuel →
      ∀ i, i % bs = 1 % bs →
        batchLoop bs i [] l = (chunksGo bs fuel l, dropGo bs fuel l) := by
  intro fuel
  induction fuel with
  | zero =>
    intro l hl i _
    have hnil : l = [] := List.length_eq_zero.mp (by omega)
    subst hnil
    simp [batchLoop, chunksGo, dropGo]
  | succ fuel ih =>
    intro l hl i hi
    by_cases hlen : bs ≤ l.length
    · have hcond : 1 ≤ bs ∧ bs ≤ l.length := ⟨hbs, hlen⟩
      rw [chunksGo, dropGo, if_pos hcond, if_pos hcond]
      rw [batchLoop_fire bs bs hbs le_rfl l hlen i (steady_fire_at bs i hbs hi)
        (fun k hk => mod_add_one_lt bs i k (by omega) hi (by omega)) []]
      rw [ih (l.drop bs) (by simp only [List.length_drop]; omega) (i + bs)
        (by rw [Nat.add_mod_right]; exact hi)]
      simp
    · push_neg at hlen
      rcases l with _ | ⟨d, rest⟩
      · have hcond : ¬ (1 ≤ bs ∧ bs ≤ ([] : List α).length) := by simp; omega
        rw [chunksGo, dropGo, if_neg hcond, if_neg hcond]
        simp [batchLoop]
      · have hbs2 : 2 ≤ bs := by
          have : 1 ≤ (d :: rest).length := by simp
          omega
        rw [batchLoop_no_fire bs (d :: rest) i []
          (fun k hk => mod_add_one_lt bs i k hbs2 hi (by omega))]
        have hcond : ¬ (1 ≤ bs ∧ bs ≤ (d :: rest).length) := by
          rintro ⟨-, hc⟩; omega
        rw [chunksGo, dropGo, if_neg hcond, if_neg hcond]
        simp

lemma chunksGo_mem_length {α : Type} (bs : ℕ) :
    ∀ (fuel : ℕ) (l : List α), ∀ b ∈ chunksGo bs fuel l, b.length = bs := by
  intro fuel
  induction fuel with
  | zero => intro l b hb; simp [chunksGo] at hb
  | succ fuel ih =>
    intro l b hb
    by_cases hc : 1 ≤ bs ∧ bs ≤ l.length
    · rw [chunksGo, if_pos hc] at hb
      rcases List.mem_cons.mp hb with rfl | hb
      · simp [List.length_take]
        omega
      · exact ih _ b hb
    · rw [chunksGo, if_neg hc] at hb
      simp at hb

lemma dropGo_length {α : Type} (bs : ℕ) (hbs : 1 ≤ bs) :
    ∀ (fuel : ℕ) (l : List α), l.length ≤ fuel → (dropGo bs fuel l).length < bs := by
  intro fuel
  induction fuel with
  | zero =>
    intro l hl
    have hnil : l = [] := List.length_eq_zero.mp (by omega)
    subst hnil
    simp [dropGo]
    omega
  | succ fuel ih =>
    intro l hl
    by_cases hc : 1 ≤ bs ∧ bs ≤ l.length
    · rw [dropGo, if_pos hc]
      exact ih (l.drop bs) (by simp only [List.length_drop]; omega)
    · rw [dropGo, if_neg hc]
      rcases Nat.lt_or_ge l.length bs with h | h
      · exact h
      · exact absurd ⟨hbs, h⟩ hc

lemma chunksGo_flatten {α : Type} (bs : ℕ) :
    ∀ (fuel : ℕ) (l : List α), l.length ≤ fuel →
      (chunksGo bs fuel l).flatten ++ dropGo bs fuel l = l := by
  intro fuel
  induction fuel with
  | zero =>
    intro l hl
    have hnil : l = [] := List.length_eq_zero.mp (by omega)
    subst hnil
    simp [chunksGo, dropGo]
  | succ fuel ih =>
    intro l hl
    by_cases hc : 1 ≤ bs ∧ bs ≤ l.length
    · rw [chunksGo, dropGo, if_pos hc, if_pos hc]
      rw [List.flatten_cons, List.append_assoc]
      rw [ih (l.drop bs) (by simp only [List.length_drop]; omega)]
      exact List.take_append_drop bs l
    · rw [chunksGo, dropGo, if_neg hc, if_neg hc]
      simp

end GAN

/-- C10: in each epoch of `ReGAN.train` a gradient step fires exactly at
indices `i` with `i % batch_size == 0`; hence on a non-empty dataset the
first step of the epoch trains on the single sample of index 0, every later
step trains on exactly `batch_size` samples, the batches partition a prefix
of the dataset in order, and the trailing partial batch (fewer than
`batch_size` samples) is discarded without a gradient step. -/
theorem C10_epoch_batching {α : Type} (bs : ℕ) (hbs : 1 ≤ bs) (d : α)
    (rest : List α) :
    (GAN.epochBatches bs (d :: rest)).1 = [d] :: GAN.fullChunks bs rest ∧
    (∀ b ∈ GAN.fullChunks bs rest, b.length = bs) ∧
    (GAN.epochBatches bs (d :: rest)).2 = GAN.dropChunks bs rest ∧
    (GAN.dropChunks bs rest).length < bs ∧
    (GAN.fullChunks bs rest).flatten ++ GAN.dropChunks bs rest = rest := by
  have hsteady := GAN.batchLoop_steady bs hbs rest.length rest le_rfl 1 rfl
  have hfire : GAN.epochBatches bs (d :: rest) =
      (([] ++ [d]) :: (GAN.batchLoop bs 1 [] rest).1,
        (GAN.batchLoop bs 1 [] rest).2) := by
    unfold GAN.epochBatches
    rw [GAN.batchLoop, if_pos (Nat.zero_mod bs)]
  refine ⟨?_, fun b hb => GAN.chunksGo_mem_length bs rest.length rest b hb, ?_,
    GAN.dropGo_length bs hbs rest.length rest le_rfl,
    GAN.chunksGo_flatten bs rest.length rest le_rfl⟩
  · rw [hfire, hsteady]
    simp [GAN.fullChunks]
  · rw [hfire, hsteady]
    simp [GAN.dropChunks]

/-- Witness for C10 at `batch_size = 2`, dataset `[0, 1, 2, 3, 4]` (so the
loop fires on `[0]`, then `[1, 2]`, then `[3, 4]`, with no leftover) — the
hypotheses of `C10_epoch_batching` hold at these inputs. -/
theorem C10_epoch_batching_witness :
    1 ≤ 2 ∧
    ((GAN.epochBatches 2 ((0 : ℕ) :: [1, 2, 3, 4])).1 =
        [0] :: GAN.fullChunks 2 [1, 2, 3, 4] ∧
      (∀ b ∈ GAN.fullChunks 2 [(1 : ℕ), 2, 3, 4], b.length = 2) ∧
      (GAN.epochBatches 2 ((0 : ℕ) :: [1, 2, 3, 4])).2 =
        GAN.dropChunks 2 [1, 2, 3, 4] ∧
      (GAN.dropChunks 2 [(1 : ℕ), 2, 3, 4]).length < 2 ∧
      (GAN.fullChunks 2 [(1 : ℕ), 2, 3, 4]).flatten ++ GAN.dropChunks 2 [1, 2, 3, 4] =
        [1, 2, 3, 4]) :=
  ⟨by norm_num, C10_epoch_batching 2 (by norm_num) 0 [1, 2, 3, 4]⟩

namespace Segmentation

lemma flatMap_congr_on {γ δ : Type} {l : List γ} {f g : γ → List δ}
    (h : ∀ x ∈ l, f x = g x) : l.flatMap f = l.flatMap g := by
  induction l with
  | nil => rfl
  | cons d rest ih =>
    rw [List.flatMap_cons, List.flatMap_cons, h d (List.mem_cons_self d rest),
      ih (fun x hx => h x (List.mem_cons_of_mem d hx))]

lemma load_foldl {α β : Type} (fs : KaggleFS α) (pI pT : α → β) :
    ∀ (ds : List String) (a : List β × List β),
      ds.foldl
        (fun acc dir =>
          (acc.1 ++ (sortedNames (fs.imageFiles dir)).map
              (fun n => pI (fs.imageContent dir n)),
           acc.2 ++ (sortedNames (fs.truthFiles dir)).map
              (fun n => pT (fs.truthContent dir n)))) a =
      (a.1 ++ ds.flatMap (fun d => (sortedNames (fs.imageFiles d)).map
          (fun n => pI (fs.imageContent d n))),
       a.2 ++ ds.flatMap (fun d => (sortedNames (fs.truthFiles d)).map
          (fun n => pT (fs.truthContent d n)))) := by
  intro ds
  induction ds with
  | nil => intro a; simp
  | cons d rest ih =>
    intro a
    rw [List.foldl_cons, ih]
    simp [List.flatMap_cons, List.append_assoc]

lemma load_eq_flatMap {α β : Type} (fs : KaggleFS α) (pI pT : α → β) :
    load_kaggle_dataset fs pI pT =
      (fs.dirs.flatMap (fun d => (sortedNames (fs.imageFiles d)).map
          (fun n => pI (fs.imageContent d n))),
       fs.dirs.flatMap (fun d => (sortedNames (fs.truthFiles d)).map
          (fun n => pT (fs.truthContent d n)))) := by
  unfold load_kaggle_dataset
  rw [load_foldl fs pI pT fs.dirs ([], [])]
  simp

end Segmentation

/-- C4 counterexample: the loader does not fail on mismatched filename sets.
With `images/a/ = {1.png, 2.png}` and `truth/a/ = {1.png}` it returns
normally, with an image list of length 2 and a mask list of length 1 —
silently misaligned pair counts, no ordering/count-mismatch error (the
loader's return type has no error outcome at all). -/
theorem C4_loader_mismatch_counterexample :
    (Segmentation.load_kaggle_dataset Segmentation.fsMismatch id id).1.length = 2 ∧
    (Segmentation.load_kaggle_dataset Segmentation.fsMismatch id id).2.length = 1 := by
  rw [Segmentation.load_eq_flatMap]
  constructor <;>
    simp [Segmentation.fsMismatch, Segmentation.sortedNames] <;>
    split <;> rfl

/-- C4 (amended): given matching filename sets in the two trees (per subset
directory, equal sorted listings), the loader produces the image and mask
sequences over the same `(directory, filename)` keys in the same sorted
order — aligned training pairs, in particular of equal length.  On
mismatched listings of different lengths it does NOT fail: it silently
returns lists of different lengths (see the counterexample). -/
theorem C4_loader_pairs_amended {α β : Type} (fs : Segmentation.KaggleFS α)
    (pI pT : α → β)
    (h : ∀ d ∈ fs.dirs,
      Segmentation.sortedNames (fs.imageFiles d) =
        Segmentation.sortedNames (fs.truthFiles d)) :
    (Segmentation.load_kaggle_dataset fs pI pT).1 =
      (Segmentation.kagglePairKeys fs fs.imageFiles).map
        (fun q => pI (fs.imageContent q.1 q.2)) ∧
    (Segmentation.load_kaggle_dataset fs pI pT).2 =
      (Segmentation.kagglePairKeys fs fs.imageFiles).map
        (fun q => pT (fs.truthContent q.1 q.2)) ∧
    (Segmentation.load_kaggle_dataset fs pI pT).1.length =
      (Segmentation.load_kaggle_dataset fs pI pT).2.length := by
  have hI : (Segmentation.kagglePairKeys fs fs.imageFiles).map
      (fun q => pI (fs.imageContent q.1 q.2)) =
      fs.dirs.flatMap (fun d => (Segmentation.sortedNames (fs.imageFiles d)).map
        (fun n => pI (fs.imageContent d n))) := by
    unfold Segmentation.kagglePairKeys
    rw [List.map_flatMap]
    apply Segmentation.flatMap_congr_on
    intro d _
    rw [List.map_map]
    rfl
  have hT : (Segmentation.kagglePairKeys fs fs.imageFiles).map
      (fun q => pT (fs.truthContent q.1 q.2)) =
      fs.dirs.flatMap (fun d => (Segmentation.sortedNames (fs.truthFiles d)).map
        (fun n => pT (fs.truthContent d n))) := by
    unfold Segmentation.kagglePairKeys
    rw [List.map_flatMap]
    apply Segmentation.flatMap_congr_on
    intro d hd
    rw [List.map_map, h d hd]
    rfl
  have e1 : (Segmentation.load_kaggle_dataset fs pI pT).1 =
      (Segmentation.kagglePairKeys fs fs.imageFiles).map
        (fun q => pI (fs.imageContent q.1 q.2)) := by
    rw [Segmentation.load_eq_flatMap, hI]
  have e2 : (Segmentation.load_kaggle_dataset fs pI pT).2 =
      (Segmentation.kagglePairKeys fs fs.imageFiles).map
        (fun q => pT (fs.truthContent q.1 q.2)) := by
    rw [Segmentation.load_eq_flatMap, hT]
  exact ⟨e1, e2, by rw [e1, e2, List.length_map, List.length_map]⟩

/-- Witness for C4's amended theorem at a concrete matching filesystem
(`images/a/` and `truth/a/` both listing `{2.png, 1.png}`). -/
theorem C4_loader_pairs_amended_witness :
    (∀ d ∈ Segmentation.fsMatch.dirs,
      Segmentation.sortedNames (Segmentation.fsMatch.imageFiles d) =
        Segmentation.sortedNames (Segmentation.fsMatch.truthFiles d)) ∧
    ((Segmentation.load_kaggle_dataset Segmentation.fsMatch id id).1 =
        (Segmentation.kagglePairKeys Segmentation.fsMatch
          Segmentation.fsMatch.imageFiles).map
          (fun q => id (Segmentation.fsMatch.imageContent q.1 q.2)) ∧
      (Segmentation.load_kaggle_dataset Segmentation.fsMatch id id).2 =
        (Segmentation.kagglePairKeys Segmentation.fsMatch
          Segmentation.fsMatch.imageFiles).map
          (fun q => id (Segmentation.fsMatch.truthContent q.1 q.2)) ∧
      (Segmentation.load_kaggle_dataset Segmentation.fsMatch id id).1.length =
        (Segmentation.load_kaggle_dataset Segmentation.fsMatch id id).2.length) :=
  ⟨fun _ _ => rfl,
    C4_loader_pairs_amended Segmentation.fsMatch id id (fun _ _ => rfl)⟩

/-- C5 counterexample: the backbone's weights are NOT frozen.  The encoder
layers — here the truncation layer `block_13_expand_relu` itself — keep the
Keras default `trainable = true`: `_create_model` never marks any backbone
layer non-trainable, so the claim that every encoder layer is marked
non-trainable fails. -/
theorem C5_backbone_not_frozen_counterexample :
    Segmentation.create_model_encoder.trainable "block_13_expand_relu" = true ∧
    "block_13_expand_relu" ∈ Segmentation.create_model_encoder.layerNames := by
  exact ⟨rfl, by decide⟩

/-- C5 (amended): the segmentation encoder is a pretrained backbone loaded
with public `"imagenet"` weights and truncated at the fixed internal layer
`block_13_expand_relu`, but its layers are left with the default
`trainable = true` — the encoder is fine-tuned by training, not frozen. -/
theorem C5_backbone_pretrained_not_frozen :
    Segmentation.create_model_encoder.weights = "imagenet" ∧
    Segmentation.encoder_output_layer = "block_13_expand_relu" ∧
    ∀ l ∈ Segmentation.create_model_encoder.layerNames,
      Segmentation.create_model_encoder.trainable l = true := by
  exact ⟨rfl, rfl, fun l _ => rfl⟩

/-- Witness for C5's amended theorem at the concrete layer
`block_1_expand_relu`. -/
theorem C5_backbone_pretrained_not_frozen_witness :
    "block_1_expand_relu" ∈ Segmentation.create_model_encoder.layerNames ∧
    Segmentation.create_model_encoder.trainable "block_1_expand_relu" = true :=
  ⟨by decide,
    C5_backbone_pretrained_not_frozen.2.2 "block_1_expand_relu" (by decide)⟩

/-- C6: the decoder of `_create_model` performs exactly four
upsample(2×)–concatenate–(Conv2D+BatchNorm+ReLU)×2 stages, with skip
connections in reverse depth order (`block_6`, `block_3`, `block_1`,
`input_image` — shallowest last) and the descending filter schedule
128, 64, 48, 32, followed by a 1×1 convolution to one channel and a
sigmoid; the resulting spatial resolution is `IMG_WIDTH = 512`, the input
resolution (each concatenation is with a skip of matching size). -/
theorem C6_decoder_structure :
    Segmentation.decoder_ops =
      [Segmentation.LayerOp.upSampling2D 2,
       Segmentation.LayerOp.concatenate "block_6_expand_relu",
       Segmentation.LayerOp.conv2D 128 3 3,
       Segmentation.LayerOp.batchNorm,
       Segmentation.LayerOp.activation "relu",
       Segmentation.LayerOp.conv2D 128 3 3,
       Segmentation.LayerOp.batchNorm,
       Segmentation.LayerOp.activation "relu",
       Segmentation.LayerOp.upSampling2D 2,
       Segmentation.LayerOp.concatenate "block_3_expand_relu",
       Segmentation.LayerOp.conv2D 64 3 3,
       Segmentation.LayerOp.batchNorm,
       Segmentation.LayerOp.activation "relu",
       Segmentation.LayerOp.conv2D 64 3 3,
       Segmentation.LayerOp.batchNorm,
       Segmentation.LayerOp.activation "relu",
       Segmentation.LayerOp.upSampling2D 2,
       Segmentation.LayerOp.concatenate "block_1_expand_relu",
       Segmentation.LayerOp.conv2D 48 3 3,
       Segmentation.LayerOp.batchNorm,
       Segmentation.LayerOp.activation "relu",
       Segmentation.LayerOp.conv2D 48 3 3,
       Segmentation.LayerOp.batchNorm,
       Segmentation.LayerOp.activation "relu",
       Segmentation.LayerOp.upSampling2D 2,
       Segmentation.LayerOp.concatenate "input_image",
       Segmentation.LayerOp.conv2D 32 3 3,
       Segmentation.LayerOp.batchNorm,
       Segmentation.LayerOp.activation "relu",
       Segmentation.LayerOp.conv2D 32 3 3,
       Segmentation.LayerOp.batchNorm,
       Segmentation.LayerOp.activation "relu",
       Segmentation.LayerOp.conv2D 1 1 1,
       Segmentation.LayerOp.activation "sigmoid"] ∧
    Segmentation.decoder_output_size = some Segmentation.IMG_WIDTH := by
  exact ⟨rfl, rfl⟩

/-- C7: the optimizer/loss/metric configuration reattached after reloading
the persisted model — in `predict_on_learned_model` and in
`display_segmentation` — is identical to the training-time configuration of
`_create_model` (Nadam with learning rate 1e-4, `_dice_loss`, metrics
`[_dice_coef, Recall, Precision]`); the reload itself passes
`compile=False`, and batched inference yields exactly one probability map
per input image. -/
theorem C7_reload_compile_matches_training :
    Segmentation.predict_compile = Segmentation.create_model_compile ∧
    Segmentation.display_compile = Segmentation.create_model_compile ∧
    Segmentation.load_model_compile_flag = false ∧
    ∀ (γ δ : Type) (u_net : γ → δ) (images : List γ),
      (Segmentation.predict_on_learned_model u_net images).length =
        images.length := by
  refine ⟨rfl, rfl, rfl, ?_⟩
  intro γ δ u_net images
  simp [Segmentation.predict_on_learned_model, Segmentation.model_predict]

namespace Segmentation

lemma zip_replicate_self {γ δ : Type} (u : γ) (v : δ) :
    ∀ k, (List.replicate k u).zip (List.replicate k v) = List.replicate k (u, v) := by
  intro k
  induction k with
  | zero => rfl
  | succ k ih => simp [List.replicate_succ, ih]

lemma polyEdges_replicate (v : ℤ × ℤ) (n : ℕ) :
    polyEdges (List.replicate n v) = List.replicate n (v, v) := by
  cases n with
  | zero => rfl
  | succ m =>
    rw [List.replicate_succ, polyEdges, ← List.replicate_succ, ← List.replicate_succ']
    exact zip_replicate_self v v (m + 1)

lemma point_not_fill (a b : ℤ) (n : ℕ) (q : ℤ × ℤ) :
    inFill (List.replicate n ((a, b) : ℤ × ℤ)) q = false := by
  have hedge : edgeCrosses q ((a, b), (a, b)) = false := by
    simp [edgeCrosses]
  have hfilter : ∀ k,
      (List.replicate k (((a, b) : ℤ × ℤ), ((a, b) : ℤ × ℤ))).filter
        (edgeCrosses q) = [] := by
    intro k
    induction k with
    | zero => rfl
    | succ k ih => simp [List.replicate_succ, List.filter_cons, hedge, ih]
  have hcross : crossings (List.replicate n ((a, b) : ℤ × ℤ)) q = 0 := by
    unfold crossings
    rw [polyEdges_replicate, hfilter]
    rfl
  have hsl : shoelace (List.replicate n ((a, b) : ℤ × ℤ)) = 0 := by
    unfold shoelace
    rw [polyEdges_replicate, List.map_replicate]
    simp
  unfold inFill
  rw [hcross, hsl]
  simp

lemma rect_inFill (W H x y : ℤ) (hW : 1 ≤ W) (hH : 1 ≤ H)
    (hx0 : 0 ≤ x) (hxW : x ≤ W) (hy0 : 0 ≤ y) (hyH : y ≤ H) :
    inFill [(0, 0), (W, 0), (W, H), (0, H)] (x, y) = true := by
  have hedges : polyEdges [((0 : ℤ), (0 : ℤ)), (W, 0), (W, H), (0, H)] =
      [(((0 : ℤ), (0 : ℤ)), (W, 0)), ((W, 0), (W, H)), ((W, H), (0, H)),
        ((0, H), ((0 : ℤ), (0 : ℤ)))] := rfl
  have hsl : shoelace [((0 : ℤ), (0 : ℤ)), (W, 0), (W, H), (0, H)] = 2 * W * H := by
    unfold shoelace
    rw [hedges]
    simp
    ring
  have hslne : (2 * W * H : ℤ) ≠ 0 := by
    have : (0 : ℤ) < 2 * W * H := by nlinarith
    exact this.ne'
  by_cases hxeq : x = W
  · have hseg : onSegment (x, y) ((W, (0 : ℤ)), (W, H)) = true := by
      subst hxeq
      unfold onSegment
      dsimp only
      simp only [Bool.and_eq_true, decide_eq_true_eq]
      exact ⟨⟨⟨⟨by ring, by omega⟩, by omega⟩, by omega⟩, by omega⟩
    have hb : onBoundary [((0 : ℤ), (0 : ℤ)), (W, 0), (W, H), (0, H)] (x, y) = true := by
      unfold onBoundary
      rw [hedges]
      refine List.any_eq_true.mpr ⟨((W, 0), (W, H)), ?_, hseg⟩
      simp
    unfold inFill
    rw [hb, hsl]
    simp [hslne]
  · by_cases hyeq : y = H
    · have hseg : onSegment (x, y) ((W, H), ((0 : ℤ), H)) = true := by
        subst hyeq
        unfold onSegment
        dsimp only
        simp only [Bool.and_eq_true, decide_eq_true_eq]
        exact ⟨⟨⟨⟨by ring, by omega⟩, by omega⟩, by omega⟩, by omega⟩
      have hb : onBoundary [((0 : ℤ), (0 : ℤ)), (W, 0), (W, H), (0, H)] (x, y) = true := by
        unfold onBoundary
        rw [hedges]
        refine List.any_eq_true.mpr ⟨((W, H), (0, H)), ?_, hseg⟩
        simp
      unfold inFill
      rw [hb, hsl]
      simp [hslne]
    · have hxlt : x < W := lt_of_le_of_ne hxW hxeq
      have hylt : y < H := lt_of_le_of_ne hyH hyeq
      have he1 : edgeCrosses (x, y) (((0 : ℤ), (0 : ℤ)), (W, 0)) = false := by
        unfold edgeCrosses
        dsimp only
        simp
      have he2 : edgeCrosses (x, y) ((W, (0 : ℤ)), (W, H)) = true := by
        have hcond : H > (0 : ℤ) := by omega
        have d1 : decide ((0 : ℤ) > y) = false := decide_eq_false (by omega)
        have d2 : decide (H > y) = true := decide_eq_true (by omega)
        have d3 : decide ((x - W) * (H - 0) < (W - W) * (y - 0)) = true := by
          refine decide_eq_true ?_
          have h1 : (0 : ℤ) < (W - x) * H := by nlinarith
          nlinarith
        unfold edgeCrosses
        dsimp only
        rw [if_pos hcond, d1, d2, d3]
        rfl
      have he3 : edgeCrosses (x, y) ((W, H), ((0 : ℤ), H)) = false := by
        unfold edgeCrosses
        dsimp only
        simp
      have he4 : edgeCrosses (x, y) (((0 : ℤ), H), ((0 : ℤ), (0 : ℤ))) = false := by
        have hcond : ¬ ((0 : ℤ) > H) := by omega
        have d : decide ((x - 0) * ((0 : ℤ) - H) > (0 - 0) * (y - H)) = false := by
          refine decide_eq_false ?_
          have h1 : (0 : ℤ) ≤ x * H := mul_nonneg hx0 (by omega)
          nlinarith
        unfold edgeCrosses
        dsimp only
        rw [if_neg hcond, d]
        simp
      have hcross : crossings [((0 : ℤ), (0 : ℤ)), (W, 0), (W, H), (0, H)] (x, y) = 1 := by
        unfold crossings
        rw [hedges]
        simp only [List.filter_cons, List.filter_nil, he1, he2, he3, he4]
        simp
      unfold inFill
      rw [hcross]
      simp

end Segmentation

/-- C2: `_get_mask` starts from a zero-initialized single-channel canvas and
fills each polygon with the fixed foreground value 255; for a single
rectangular polygon covering the full image (any shape with both sides at
least 2) every pixel of the canvas ends up with the foreground value 255,
and for a zero-area degenerate polygon (a repeated single point) the canvas
is unchanged — every pixel stays at the background value 0. -/
theorem C2_get_mask_rect_and_degenerate (w h : ℕ) (hw : 2 ≤ w) (hh : 2 ≤ h) :
    (∀ x y : ℤ, 0 ≤ x → x ≤ (w : ℤ) - 1 → 0 ≤ y → y ≤ (h : ℤ) - 1 →
      Segmentation.get_mask [Segmentation.fullRectLabel w h] (x, y) = 255) ∧
    (∀ (a b : ℤ) (n : ℕ) (q : ℤ × ℤ),
      Segmentation.get_mask [Segmentation.pointLabel a b n] q = 0) := by
  constructor
  · intro x y hx0 hxW hy0 hyH
    have hzip : (Segmentation.fullRectLabel w h).1.zip (Segmentation.fullRectLabel w h).2 =
        [((0 : ℤ), (0 : ℤ)), ((w : ℤ) - 1, 0), ((w : ℤ) - 1, (h : ℤ) - 1),
          (0, (h : ℤ) - 1)] := rfl
    have hfill := Segmentation.rect_inFill ((w : ℤ) - 1) ((h : ℤ) - 1) x y
      (by omega) (by omega) hx0 hxW hy0 hyH
    unfold Segmentation.get_mask
    simp only [List.foldl_cons, List.foldl_nil]
    unfold Segmentation.fillPoly
    rw [hzip, hfill]
    simp
  · intro a b n q
    have hzip : (Segmentation.pointLabel a b n).1.zip (Segmentation.pointLabel a b n).2 =
        List.replicate n ((a, b) : ℤ × ℤ) := Segmentation.zip_replicate_self a b n
    unfold Segmentation.get_mask
    simp only [List.foldl_cons, List.foldl_nil]
    unfold Segmentation.fillPoly
    rw [hzip, Segmentation.point_not_fill]
    simp

/-- Witness for C2 at a concrete 3×2 image (rectangle case at pixel (1, 1))
and at the degenerate polygon of point (5, 7) repeated 4 times, queried at
its own location. -/
theorem C2_get_mask_rect_and_degenerate_witness :
    (2 ≤ 3 ∧ 2 ≤ 2) ∧
    Segmentation.get_mask [Segmentation.fullRectLabel 3 2] (1, 1) = 255 ∧
    Segmentation.get_mask [Segmentation.pointLabel 5 7 4] (5, 7) = 0 := by
  refine ⟨⟨by norm_num, by norm_num⟩, ?_, ?_⟩
  · exact (C2_get_mask_rect_and_degenerate 3 2 (by norm_num) (by norm_num)).1 1 1
      (by norm_num) (by norm_num) (by norm_num) (by norm_num)
  · exact (C2_get_mask_rect_and_degenerate 3 2 (by norm_num) (by norm_num)).2 5 7 4 (5, 7)

namespace Segmentation

lemma lerp_bounds (lo hi a b t : ℚ) (ha0 : lo ≤ a) (ha1 : a ≤ hi)
    (hb0 : lo ≤ b) (hb1 : b ≤ hi) (ht0 : 0 ≤ t) (ht1 : t ≤ 1) :
    lo ≤ lerp a b t ∧ lerp a b t ≤ hi := by
  unfold lerp
  constructor <;> nlinarith

lemma bilerp_bounds (a b c d s t : ℚ)
    (ha0 : 0 ≤ a) (ha1 : a ≤ 255) (hb0 : 0 ≤ b) (hb1 : b ≤ 255)
    (hc0 : 0 ≤ c) (hc1 : c ≤ 255) (hd0 : 0 ≤ d) (hd1 : d ≤ 255)
    (hs0 : 0 ≤ s) (hs1 : s ≤ 1) (ht0 : 0 ≤ t) (ht1 : t ≤ 1) :
    0 ≤ lerp (lerp a b s) (lerp c d s) t ∧
      lerp (lerp a b s) (lerp c d s) t ≤ 255 := by
  have h1 := lerp_bounds 0 255 a b s ha0 ha1 hb0 hb1 hs0 hs1
  have h2 := lerp_bounds 0 255 c d s hc0 hc1 hd0 hd1 hs0 hs1
  exact lerp_bounds 0 255 _ _ t h1.1 h1.2 h2.1 h2.2 ht0 ht1

lemma clampIdx_frac (n : ℕ) (c : ℚ) :
    0 ≤ (clampIdx n c).2.2 ∧ (clampIdx n c).2.2 ≤ 1 := by
  unfold clampIdx
  dsimp only
  constructor
  · apply le_min
    · have h0 : (0 : ℚ) ≤ max 0 c := le_max_left 0 c
      have h1 : (min (⌊max 0 c⌋.toNat) (n - 1)) ≤ ⌊max 0 c⌋.toNat :=
        min_le_left _ _
      have h2 : ((⌊max 0 c⌋.toNat : ℤ)) = ⌊max 0 c⌋ :=
        Int.toNat_of_nonneg (Int.floor_nonneg.mpr h0)
      have h3 : ((min (⌊max 0 c⌋.toNat) (n - 1) : ℕ) : ℚ) ≤ max 0 c := by
        calc ((min (⌊max 0 c⌋.toNat) (n - 1) : ℕ) : ℚ)
            ≤ ((⌊max 0 c⌋.toNat : ℕ) : ℚ) := by exact_mod_cast h1
          _ = ((⌊max 0 c⌋ : ℤ) : ℚ) := by exact_mod_cast h2
          _ ≤ max 0 c := Int.floor_le _
      linarith
    · norm_num
  · exact min_le_right _ _

lemma sampleBilinear_bounds (img : Img) (himg : img.Valid8Bit) (rh rw i j : ℕ) :
    0 ≤ sampleBilinear img rh rw i j ∧ sampleBilinear img rh rw i j ≤ 255 := by
  unfold sampleBilinear
  exact bilerp_bounds _ _ _ _ _ _
    (himg _ _).1 (himg _ _).2 (himg _ _).1 (himg _ _).2
    (himg _ _).1 (himg _ _).2 (himg _ _).1 (himg _ _).2
    (clampIdx_frac _ _).1 (clampIdx_frac _ _).2
    (clampIdx_frac _ _).1 (clampIdx_frac _ _).2

lemma resize_with_pad_bounds (img : Img) (himg : img.Valid8Bit) (th tw i j : ℕ) :
    0 ≤ (resize_with_pad img th tw).pix i j ∧
      (resize_with_pad img th tw).pix i j ≤ 255 := by
  unfold resize_with_pad
  dsimp only
  split
  · exact sampleBilinear_bounds img himg _ _ _ _
  · norm_num

lemma uint8_div_bounds (x : ℚ) (_h0 : 0 ≤ x) (h255 : x ≤ 255) :
    0 ≤ ((⌊x⌋.toNat : ℚ)) / 255 ∧ ((⌊x⌋.toNat : ℚ)) / 255 ≤ 1 := by
  constructor
  · positivity
  · have hfl : ⌊x⌋ ≤ 255 := by
      have h1 : ⌊x⌋ ≤ ⌊(255 : ℚ)⌋ := Int.floor_le_floor h255
      have h2 : ⌊(255 : ℚ)⌋ = 255 := by norm_num
      omega
    have h2 : ⌊x⌋.toNat ≤ 255 := by omega
    have h3 : ((⌊x⌋.toNat : ℕ) : ℚ) ≤ 255 := by exact_mod_cast h2
    rw [div_le_one (by norm_num)]
    exact h3

end Segmentation

/-- C3: for every valid 8-bit input image (all pixel values in `[0, 255]`),
of any aspect ratio, `_convert_image` — resize-with-pad followed by a uint8
cast and division by 255 — produces an output whose spatial shape is the
fixed 512×512 target (`IMG_WIDTH × IMG_HEIGHT`) and whose pixel values all
lie in `[0, 1]`. -/
theorem C3_convert_image_shape_and_range (img : Segmentation.Img)
    (himg : img.Valid8Bit) :
    (Segmentation.convert_image img).h = Segmentation.IMG_WIDTH ∧
    (Segmentation.convert_image img).w = Segmentation.IMG_HEIGHT ∧
    ∀ i j, 0 ≤ (Segmentation.convert_image img).pix i j ∧
      (Segmentation.convert_image img).pix i j ≤ 1 := by
  refine ⟨rfl, rfl, ?_⟩
  intro i j
  have hr := Segmentation.resize_with_pad_bounds img himg
    Segmentation.IMG_WIDTH Segmentation.IMG_HEIGHT i j
  exact Segmentation.uint8_div_bounds _ hr.1 hr.2

/-- Witness for C3 at the concrete 3×5 image of constant value 200 (a valid
8-bit image), checking the shape and, e.g., that all output pixels are in
`[0, 1]`. -/
theorem C3_convert_image_shape_and_range_witness :
    Segmentation.sampleImage.Valid8Bit ∧
    ((Segmentation.convert_image Segmentation.sampleImage).h =
        Segmentation.IMG_WIDTH ∧
      (Segmentation.convert_image Segmentation.sampleImage).w =
        Segmentation.IMG_HEIGHT ∧
      ∀ i j, 0 ≤ (Segmentation.convert_image Segmentation.sampleImage).pix i j ∧
        (Segmentation.convert_image Segmentation.sampleImage).pix i j ≤ 1) := by
  have hv : Segmentation.sampleImage.Valid8Bit := by
    intro i j
    constructor <;> norm_num [Segmentation.sampleImage]
  exact ⟨hv, C3_convert_image_shape_and_range Segmentation.sampleImage hv⟩
